import Mathlib

/-!
Verification development for the vax graph IR engine.

The definitions below are a shallow embedding of the TypeScript source
(the canonical engine file: classes Node, Edge, Comment, Graph and VAX).
JavaScript objects used as string-keyed dictionaries are modelled as
functions String -> Option _ or String -> List _ built by the same folds
the source builds them with; arrays are Lean lists; the optional fields
x, y, out are Option values (undefined = none); the open attribute bags
a and t are modelled as string association lists (the engine reads only
the key Name from a); exceptions are modelled with Except; the unbounded
recursion of composeTree and of the inlining fixpoint is modelled with an
explicit fuel parameter whose exhaustion is a distinguished error value.
-/

/-- The attribute bags a and t of a node (any-typed in the source) as
string association lists; the engine itself reads only a.Name. -/
abbrev Attrs := List (String × String)

/-- The Node class. The field edges is the slot-name -> child map that the
tree composer fills in (empty on a raw graph node), which makes the type
recursive; its JS-object key order is kept as list order. The interface
INode carries exactly the same fields, so raw nodes are values of this
same type. -/
inductive Node where
  | mk (id : String) (a : Attrs) (t : Attrs) (c : String)
       (edges : List (String × Node)) (x : Option Int) (y : Option Int)
       (out : Option String)

def Node.id : Node → String
  | .mk i _ _ _ _ _ _ _ => i

def Node.a : Node → Attrs
  | .mk _ a _ _ _ _ _ _ => a

def Node.t : Node → Attrs
  | .mk _ _ t _ _ _ _ _ => t

def Node.c : Node → String
  | .mk _ _ _ c _ _ _ _ => c

def Node.edges : Node → List (String × Node)
  | .mk _ _ _ _ e _ _ _ => e

def Node.x : Node → Option Int
  | .mk _ _ _ _ _ x _ _ => x

def Node.y : Node → Option Int
  | .mk _ _ _ _ _ _ y _ => y

def Node.out : Node → Option String
  | .mk _ _ _ _ _ _ _ o => o

mutual

def Node.decEq : (a b : Node) → Decidable (a = b)
  | .mk i₁ a₁ t₁ c₁ e₁ x₁ y₁ o₁, .mk i₂ a₂ t₂ c₂ e₂ x₂ y₂ o₂ => by
    have he := Node.decEqChildren e₁ e₂
    exact decidable_of_iff
      (i₁ = i₂ ∧ a₁ = a₂ ∧ t₁ = t₂ ∧ c₁ = c₂ ∧ e₁ = e₂ ∧ x₁ = x₂ ∧ y₁ = y₂ ∧ o₁ = o₂)
      (by rw [Node.mk.injEq])

def Node.decEqChildren : (l₁ l₂ : List (String × Node)) → Decidable (l₁ = l₂)
  | [], [] => isTrue rfl
  | [], _ :: _ => isFalse (fun h => List.noConfusion h)
  | _ :: _, [] => isFalse (fun h => List.noConfusion h)
  | (k₁, v₁) :: r₁, (k₂, v₂) :: r₂ => by
    have hv := Node.decEq v₁ v₂
    have hr := Node.decEqChildren r₁ r₂
    exact decidable_of_iff ((k₁ = k₂ ∧ v₁ = v₂) ∧ r₁ = r₂)
      (by rw [List.cons.injEq, Prod.mk.injEq])

end

instance : DecidableEq Node := Node.decEq

/-- The id -> Node index (Node.getNodesObject): the JS object built by
reduce with spread, where a later node with the same id overwrites an
earlier one. Modelled as a lookup function built by the same fold. -/
def getNodesObject (nodes : List Node) : String → Option Node :=
  nodes.foldl (fun acc n => fun i => if i = n.id then some n else acc i)
    (fun _ => none)

/-- The node constructor: copies the raw fields, prepending the optional
prefix (empty string when absent) to the id only. -/
def Node.build (raw : Node) (pfx : Option String) : Node :=
  match raw with
  | .mk i a t c e x y o => .mk (pfx.getD "" ++ i) a t c e x y o

/-- The rawNode getter: a plain record of the same eight fields. -/
def Node.rawNode (n : Node) : Node :=
  .mk n.id n.a n.t n.c n.edges n.x n.y n.out

/-- Node.clone(prefix) = new Node(this.rawNode, prefix). -/
def Node.cloneWith (n : Node) (pfx : Option String) : Node :=
  Node.build n.rawNode pfx

/-- A raw edge tuple (inputNodeId, inputName, outputNodeId, outputName). -/
abbrev RawEdge := String × String × String × String

/-- The Edge class. The optional inputNode/outputNode object references of
the source are omitted: no call site in the engine ever passes them. The
actions array collects the transient toDelete markers pushed during
inlining. -/
structure Edge where
  inputNodeId : String
  inputName : String
  outputNodeId : String
  outputName : String
  actions : List String
deriving DecidableEq

/-- The edge constructor: endpoint node ids are copied verbatim; only the
two slot names get the prefix; actions starts empty. -/
def Edge.build (raw : RawEdge) (pfx : Option String) : Edge :=
  { inputNodeId := raw.1
    inputName := pfx.getD "" ++ raw.2.1
    outputNodeId := raw.2.2.1
    outputName := pfx.getD "" ++ raw.2.2.2
    actions := [] }

def Edge.rawEdge (e : Edge) : RawEdge :=
  (e.inputNodeId, e.inputName, e.outputNodeId, e.outputName)

/-- Edge.clone(prefix) = new Edge(this.rawEdge, prefix). -/
def Edge.cloneWith (e : Edge) (pfx : Option String) : Edge :=
  Edge.build e.rawEdge pfx

/-- The incoming-edge descriptor {in, outputNodeId, out}; the source field
named in is called inName here (in is a Lean keyword). -/
structure EdgeObject where
  inName : String
  outputNodeId : String
  out : String
deriving DecidableEq

def Edge.toEdgeObject (e : Edge) : EdgeObject :=
  { inName := e.inputName, outputNodeId := e.outputNodeId, out := e.outputName }

/-- The consumer-id -> incoming edge descriptors index
(Edge.getNodeEdgesObject), built by the same reduce: each edge appends its
descriptor to the bucket of its inputNodeId, in edge order. -/
def getNodeEdgesObject (edges : List Edge) : String → List EdgeObject :=
  edges.foldl
    (fun acc e => fun i =>
      if i = e.inputNodeId then acc i ++ [e.toEdgeObject] else acc i)
    (fun _ => [])

structure Comment where
  comment : List String
deriving DecidableEq

def Comment.rawComment (c : Comment) : Comment := ⟨c.comment⟩

structure RawGraph where
  nodes : List Node
  edges : List RawEdge
  comments : List Comment
deriving DecidableEq

/-- The Graph class: the three collections plus the two derived indices,
which are computed once here (the constructor) and nowhere else. -/
structure Graph where
  nodes : List Node
  edges : List Edge
  comments : List Comment
  nodesObject : String → Option Node
  nodeEdgesObject : String → List EdgeObject

/-- The Graph constructor: builds nodes and edges from the raw description
with the optional prefix, then both indices from the freshly built
collections. -/
def Graph.build (raw : RawGraph) (pfx : Option String) : Graph :=
  let nodes := raw.nodes.map (fun rn => Node.build rn pfx)
  let edges := raw.edges.map (fun re => Edge.build re pfx)
  { nodes := nodes
    edges := edges
    comments := raw.comments
    nodesObject := getNodesObject nodes
    nodeEdgesObject := getNodeEdgesObject edges }

def Graph.rawGraph (g : Graph) : RawGraph :=
  { nodes := g.nodes.map Node.rawNode
    edges := g.edges.map Edge.rawEdge
    comments := g.comments.map Comment.rawComment }

/-- getNodesByIds: one index lookup per id, in order; a missing id puts an
undefined entry (none) in the list, exactly as the lodash map does. -/
def Graph.getNodesByIds (g : Graph) (filterNodesIds : List String) :
    List (Option Node) :=
  filterNodesIds.map (fun nodeId => g.nodesObject nodeId)

inductive EdgeFilter where
  | input
  | output
deriving DecidableEq

def Graph.getEdges (g : Graph) (node : Node) (edgeFilterBy : Option EdgeFilter) :
    List Edge :=
  g.edges.filter (fun e =>
    match edgeFilterBy with
    | some .input => e.inputNodeId == node.id
    | some .output => e.outputNodeId == node.id
    | none => e.inputNodeId == node.id || e.outputNodeId == node.id)

/-- Root nodes: nodes that never appear as the consumer (inputNodeId) of
any edge. -/
def Graph.getRootNodes (g : Graph) : List Node :=
  g.nodes.filter (fun node =>
    g.edges.all (fun e => !(e.inputNodeId == node.id)))

/-- addNodes reassigns this.nodes only; the indices are untouched. -/
def Graph.addNodes (g : Graph) (nodes : List Node) : Graph :=
  { g with nodes := g.nodes ++ nodes }

/-- addEdges reassigns this.edges only; the indices are untouched. -/
def Graph.addEdges (g : Graph) (edges : List Edge) : Graph :=
  { g with edges := g.edges ++ edges }

/-- deleteNodes keeps the nodes the (node, index) predicate rejects; the
indices are untouched. -/
def Graph.deleteNodes (g : Graph) (filterFn : Node → Nat → Bool) : Graph :=
  { g with nodes := ((g.nodes.enum.filter
      (fun p => !(filterFn p.2 p.1))).map (fun p => p.2)) }

/-- deleteEdges keeps the edges the (edge, index) predicate rejects; the
indices are untouched. -/
def Graph.deleteEdges (g : Graph) (filterFn : Edge → Nat → Bool) : Graph :=
  { g with edges := ((g.edges.enum.filter
      (fun p => !(filterFn p.2 p.1))).map (fun p => p.2)) }

/-- equals: lodash isEqual of the two raw forms, i.e. decidable structural
equality of the full serialisable content. -/
def Graph.equals (g other : Graph) : Bool :=
  other.rawGraph == g.rawGraph

def Graph.equalsRaw (g : Graph) (raw : RawGraph) : Bool :=
  raw == g.rawGraph

/-- Graph.clone(prefix) = new Graph(this.rawGraph, prefix). -/
def Graph.clone (g : Graph) (pfx : Option String) : Graph :=
  Graph.build g.rawGraph pfx

/-! ## Tree composition -/

/-- The errors a composeTree call can raise: the explicit cycle throw of
the source (carrying the repeated node id and the ancestor chain), the
TypeError a JS undefined lookup raises (a dangling node reference), and
the distinguished value that stands for recursion beyond the fuel bound
(the source recursion is bounded by the native stack instead). -/
inductive ComposeError where
  | cycleDetected (id : String) (parents : List String)
  | danglingNode (id : String)
  | outOfFuel
deriving DecidableEq

/-- True exactly on a cycle-detection error result. -/
def isCycleErr {α : Type} : Except ComposeError α → Bool
  | .error (.cycleDetected _ _) => true
  | _ => false

/-- lodash union: the unique values of both lists, keeping the order of
first occurrence. -/
def lodashUnion (l₁ l₂ : List String) : List String :=
  l₂.foldl (fun acc x => if x ∈ acc then acc else acc ++ [x])
    (l₁.foldl (fun acc x => if x ∈ acc then acc else acc ++ [x]) [])

/-- JS object update {...acc, [k]: v}: an existing key keeps its position
and gets the new value, a new key is appended. -/
def objInsert (l : List (String × Node)) (k : String) (v : Node) :
    List (String × Node) :=
  if l.any (fun p => p.1 == k) then
    l.map (fun p => if p.1 == k then (k, v) else p)
  else l ++ [(k, v)]

/-- lodash clone(node) is shallow, and the source then overwrites the
edges and out fields of the copy only: the stored node is not mutated. -/
def Node.setComposed (n : Node) (edges : List (String × Node))
    (out : Option String) : Node :=
  match n with
  | .mk i a t c _ x y _ => .mk i a t c edges x y out

/-- One iteration of the reduce that collects the composed subtrees of a
node: resolve the producer of the edge descriptor (a missing producer
raises the dangling error the JS undefined dereference would), compose
it recursively through the given recursion, and place the subtree under
the consumer slot name. -/
def composeChildStep (g : Graph)
    (recurse : Node → Option String → Except ComposeError Node)
    (acc : List (String × Node)) (edgeData : EdgeObject) :
    Except ComposeError (List (String × Node)) :=
  match g.nodesObject edgeData.outputNodeId with
  | none => .error (.danglingNode edgeData.outputNodeId)
  | some child =>
    (recurse child (some edgeData.out)).map
      (fun sub => objInsert acc edgeData.inName sub)

/-- composeTree(node, rawParentsIds, out?): raise CycleDetected when the
node id is already an ancestor; otherwise extend the ancestor list
(lodash union), reduce the incoming edge descriptors of the node with
composeChildStep (the reduce with a throw inside is foldlM over Except),
and return the shallow clone with edges and out replaced. -/
def Graph.composeTree (g : Graph) :
    Nat → Node → List String → Option String → Except ComposeError Node
  | 0, _, _, _ => .error .outOfFuel
  | fuel + 1, node, parentsIds, out =>
    if parentsIds.any (fun pid => pid == node.id) then
      .error (.cycleDetected node.id parentsIds)
    else
      let newParentsIds := lodashUnion parentsIds [node.id]
      let rawNodeEdges := g.nodeEdgesObject node.id
      match rawNodeEdges.foldlM
          (composeChildStep g (fun child childOut =>
            g.composeTree fuel child newParentsIds childOut)) [] with
      | .error e => .error e
      | .ok nodeEdges => .ok (node.setComposed nodeEdges out)

/-- composeTreeWithRootNode(rootNodeId): start with an empty ancestor
list; a root id the index does not know raises the undefined dereference.
The fuel bound nodes.length + 1 covers every terminating source run,
since the ancestor list is duplicate-free and holds ids of indexed
nodes. -/
def Graph.composeTreeWithRootNode (g : Graph) (rootNodeId : String) :
    Except ComposeError Node :=
  match g.nodesObject rootNodeId with
  | none => .error (.danglingNode rootNodeId)
  | some node => g.composeTree (g.nodes.length + 1) node [] none

/-- composeTrees: one composed tree per root node. -/
def Graph.composeTrees (g : Graph) : Except ComposeError (List Node) :=
  g.getRootNodes.mapM (fun rootNode => g.composeTreeWithRootNode rootNode.id)

/-- State-threaded form of composeTreeWithRootNode: the source method
assigns only to the lodash clone it builds (newNode.edges, newNode.out),
never to this.nodes, this.edges, this.comments or either index, so the
threaded graph state comes back as it went in. -/
def Graph.composeTreeWithRootNodeS (g : Graph) (rootNodeId : String) :
    Except ComposeError Node × Graph :=
  (g.composeTreeWithRootNode rootNodeId, g)

/-- State-threaded form of composeTrees; see composeTreeWithRootNodeS. -/
def Graph.composeTreesS (g : Graph) : Except ComposeError (List Node) × Graph :=
  (g.composeTrees, g)

/-! ## The VAX engine -/

structure SchemaComponent where
  isUserFunction : Bool
deriving DecidableEq

/-- The schema: component-type name -> flags, with Object.entries order as
list order. -/
structure Schema where
  components : List (String × SchemaComponent)
deriving DecidableEq

structure VaxOptions where
  schema : Schema

/-- The TypeError a JS dereference of undefined raises. -/
inductive JsError where
  | typeError
deriving DecidableEq

/-- The VAX class state. this.graph carries the definite-assignment
assertion (graph!) in the source and is in fact never assigned anywhere,
so it is an Option that stays none unless a state is built by hand. The
user-function storage maps names to nullary thunks returning an empty
object (Map<string, () => {}>), so it holds no graph data; it is modelled
as an association list to Unit. -/
structure VAX where
  graph : Option Graph
  schema : Schema
  userFunctionStorage : List (String × Unit)
  counter : Nat

/-- generateNextID(): returns the counter and increments it. -/
def VAX.generateNextID (v : VAX) : Nat × VAX :=
  (v.counter, { v with counter := v.counter + 1 })

/-- loadGraph(graph): reads this.graph.equalsRaw first, which raises a
TypeError when this.graph is still unset; otherwise returns the current
graph when the raw form is structurally identical, and a freshly built
Graph when not. Nothing is ever assigned to this.graph, so the instance
state comes back unchanged. -/
def VAX.loadGraph (v : VAX) (graph : RawGraph) : Except JsError (Graph × VAX) :=
  match v.graph with
  | none => .error .typeError
  | some g =>
    if g.equalsRaw graph then .ok (g, v)
    else .ok (Graph.build graph none, v)

/-- The VAX constructor: initialises counter, schema and storage, leaves
this.graph unset, then calls loadGraph with the empty raw graph — which
dereferences the unset this.graph and raises a TypeError. -/
def VAX.construct (options : VaxOptions) : Except JsError VAX :=
  let v : VAX :=
    { graph := none
      schema := options.schema
      userFunctionStorage := []
      counter := 0 }
  match v.loadGraph { nodes := [], edges := [], comments := [] } with
  | .error e => .error e
  | .ok (_, v') => .ok v'

/-- saveGraph(): this.graph.rawGraph — a TypeError when this.graph is
unset. -/
def VAX.saveGraph (v : VAX) : Except JsError RawGraph :=
  match v.graph with
  | none => .error .typeError
  | some g => .ok g.rawGraph

/-! ## The inliner -/

/-- One host-edge iteration of the first rewiring loop of
evaluateUserFunctionNode (edges where the reference node is the
consumer). The source iterates getEdges(node, INPUT) and mutates the edge
objects of the host in place while pushing toDelete markers on clone
edges; here the whole host edge list is folded in order, edges that the
INPUT filter would not select passing through unchanged, and the clone
edge list is threaded as state. For a selected edge: find the UF_Input
marker of the cloned graph whose attribute Name equals the (pre-mutation)
inputName; when found, every clone edge consumed by that marker in turn
assigns its inputName/inputNodeId onto the host edge (the last one wins)
and is marked toDelete. -/
def inputRewireStep (cloneNodes : List Node) (node : Node)
    (acc : List Edge × List Edge) (e : Edge) : List Edge × List Edge :=
  let hostDone := acc.1
  let cEdges := acc.2
  if e.inputNodeId == node.id then
    match cloneNodes.find? (fun n =>
        n.c == "UF_Input" && n.a.lookup "Name" == some e.inputName) with
    | some ufn =>
      let ufEdges := cEdges.filter (fun ce => ce.inputNodeId == ufn.id)
      let e' := ufEdges.foldl
        (fun ec ufe =>
          { ec with inputName := ufe.inputName, inputNodeId := ufe.inputNodeId })
        e
      let cEdges' := cEdges.map (fun ce =>
        if ce.inputNodeId == ufn.id then
          { ce with actions := ce.actions ++ ["toDelete"] }
        else ce)
      (hostDone ++ [e'], cEdges')
    | none => (hostDone ++ [e], cEdges)
  else (hostDone ++ [e], cEdges)

/-- One host-edge iteration of the second rewiring loop (edges where the
reference node is the producer), symmetric to inputRewireStep with
UF_Output markers and the outputName/outputNodeId side. -/
def outputRewireStep (cloneNodes : List Node) (node : Node)
    (acc : List Edge × List Edge) (e : Edge) : List Edge × List Edge :=
  let hostDone := acc.1
  let cEdges := acc.2
  if e.outputNodeId == node.id then
    match cloneNodes.find? (fun n =>
        n.c == "UF_Output" && n.a.lookup "Name" == some e.outputName) with
    | some ufn =>
      let ufEdges := cEdges.filter (fun ce => ce.outputNodeId == ufn.id)
      let e' := ufEdges.foldl
        (fun ec ufe =>
          { ec with outputName := ufe.outputName, outputNodeId := ufe.outputNodeId })
        e
      let cEdges' := cEdges.map (fun ce =>
        if ce.outputNodeId == ufn.id then
          { ce with actions := ce.actions ++ ["toDelete"] }
        else ce)
      (hostDone ++ [e'], cEdges')
    | none => (hostDone ++ [e], cEdges)
  else (hostDone ++ [e], cEdges)

/-- evaluateUserFunctionNode(node, graph). The user function fetched from
storage is bound and never used, exactly as in the source; what gets
cloned with the fresh uf_N_ prefix is the host graph itself
(graph.clone(prefix)). After both rewiring loops, the UF_-prefixed system
nodes and the marked or marker-touching edges are deleted from the clone,
the marked edges and the reference node from the host, and the remaining
clone nodes and edges are spliced into the host. The in-place edge
mutations of the loops are represented by replacing the host edge list
(the indices stay as they were, as in the source). -/
def VAX.evaluateUserFunctionNode (v : VAX) (node : Node) (graph : Graph) :
    Graph × VAX :=
  let _userFunction := v.userFunctionStorage.lookup node.c
  let idAndState := v.generateNextID
  let pfx := "uf_" ++ toString idAndState.1 ++ "_"
  let v' := idAndState.2
  let cloneGraphWithPrefix := graph.clone (some pfx)
  let step1 := graph.edges.foldl
    (inputRewireStep cloneGraphWithPrefix.nodes node)
    ([], cloneGraphWithPrefix.edges)
  let step2 := step1.1.foldl
    (outputRewireStep cloneGraphWithPrefix.nodes node) ([], step1.2)
  let systemNodesIds := (cloneGraphWithPrefix.nodes.filter
    (fun ufn => ufn.c.take 3 == "UF_")).map (fun ufn => ufn.id)
  let cloneAfter :=
    (({ cloneGraphWithPrefix with edges := step2.2 }).deleteNodes
        (fun ufn _ => ufn.c.take 3 == "UF_")).deleteEdges
      (fun ufe _ =>
        ufe.actions.contains "toDelete" ||
        systemNodesIds.contains ufe.outputNodeId ||
        systemNodesIds.contains ufe.inputNodeId)
  let hostAfter :=
    (({ graph with edges := step2.1 }).deleteEdges
        (fun e _ => e.actions.contains "toDelete")).deleteNodes
      (fun n _ => n.id == node.id)
  ((hostAfter.addNodes cloneAfter.nodes).addEdges cloneAfter.edges, v')

/-- The error outcomes of the inlining fixpoint: the fuel bound standing
for a recursion that never reaches the fixpoint, and the undefined value
the source returns when this.graph is unset in the no-user-function
branch. -/
inductive InlineError where
  | fuelExhausted
  | undefinedGraph
deriving DecidableEq

/-- inlineUserFunctionsInGraph(graph, rawUserFunctionsIds?) with an
explicit fuel bound on the recursion depth. The user-function type ids
are the caller-supplied ones, or on the first call the schema components
flagged isUserFunction. When the graph holds no node of such a type THE
INSTANCE graph this.graph is returned (not the argument). Otherwise every
selected node is evaluated in order against the mutating graph, and when
nodes of a user-function type remain the function recurses with the same
id set. -/
def VAX.inlineUserFunctionsInGraph (v : VAX) :
    Nat → Graph → Option (List String) → Except InlineError (Graph × VAX)
  | 0, _, _ => .error .fuelExhausted
  | fuel + 1, graph, rawUserFunctionsIds =>
    let userFunctionsIds :=
      rawUserFunctionsIds.getD [] ++
        (match rawUserFunctionsIds with
        | some _ => []
        | none =>
          (v.schema.components.filter
            (fun comp => comp.2.isUserFunction)).map (fun comp => comp.1))
    let userFunctionsNodes := graph.nodes.filter
      (fun n => userFunctionsIds.contains n.c)
    if userFunctionsNodes.length ≤ 0 then
      match v.graph with
      | some h => .ok (h, v)
      | none => .error .undefinedGraph
    else
      let folded := userFunctionsNodes.foldl
        (fun (acc : Graph × VAX) n => acc.2.evaluateUserFunctionNode n acc.1)
        (graph, v)
      let updatedUserFunctionNodes := folded.1.nodes.filter
        (fun n => userFunctionsIds.contains n.c)
      if updatedUserFunctionNodes.length == 0 then .ok folded
      else folded.2.inlineUserFunctionsInGraph fuel folded.1
        (some userFunctionsIds)

/-! ## Concrete fixtures -/

/-- A raw node with the given id and component type, empty attribute
bags, no position, empty edges map. -/
def mkRawNode (i c : String) : Node :=
  Node.mk i [] [] c [] none none none

/-- The two-node cyclic graph: A consumes from B and B consumes from A. -/
def cycRaw : RawGraph :=
  { nodes := [mkRawNode "A" "prim", mkRawNode "B" "prim"]
    edges := [("A", "x", "B", "o"), ("B", "y", "A", "o")]
    comments := [] }

def cycGraph : Graph := Graph.build cycRaw none

/-- The tree-shape fixture: root consumes p1 on slot x and p2 on slot y,
both through producer slot out. -/
def shapeRaw : RawGraph :=
  { nodes := [mkRawNode "root" "prim", mkRawNode "p1" "prim", mkRawNode "p2" "prim"]
    edges := [("root", "x", "p1", "out"), ("root", "y", "p2", "out")]
    comments := [] }

def shapeGraph : Graph := Graph.build shapeRaw none

/-- A one-node, zero-edge graph (trivially acyclic). -/
def soloRaw : RawGraph :=
  { nodes := [mkRawNode "r" "prim"], edges := [], comments := [] }

def soloGraph : Graph := Graph.build soloRaw none

/-- A one-node graph with a self edge in the raw form, used to exhibit
what clone-with-prefix does to edge endpoints. -/
def selfRaw : RawGraph :=
  { nodes := [mkRawNode "n" "prim"]
    edges := [("n", "i", "n", "o")]
    comments := [] }

def selfGraph : Graph := Graph.build selfRaw none

def emptyRaw : RawGraph := { nodes := [], edges := [], comments := [] }

/-! ## C5: tree shape on the concrete three-node fixture -/

/-- C5: composing shapeGraph from root succeeds and returns a value copy
of root whose edges map has exactly the keys x and y, bound to the
composed subtrees of p1 and p2, each carrying out = the producer slot
name it was reached through. -/
theorem vax_C5_tree_shape :
    shapeGraph.composeTreeWithRootNode "root" =
      .ok (Node.mk "root" [] [] "prim"
        [("x", Node.mk "p1" [] [] "prim" [] none none (some "out")),
         ("y", Node.mk "p2" [] [] "prim" [] none none (some "out"))]
        none none none) ∧
    (shapeGraph.composeTreeWithRootNode "root").map
        (fun n => n.edges.map (fun p => p.1)) = .ok ["x", "y"] ∧
    (shapeGraph.composeTreeWithRootNode "root").map
        (fun n => n.edges.map (fun p => p.2.out)) =
      .ok [some "out", some "out"] ∧
    (shapeGraph.composeTreeWithRootNode "root").map (fun n => n.out) =
      .ok none := by
  refine ⟨rfl, rfl, rfl, rfl⟩

/-! ## C9: mutation operations do not touch the derived indices -/

/-- C9: addNodes, addEdges, deleteNodes and deleteEdges reassign only the
nodes/edges collections; both derived indices (and the comments) keep
their pre-mutation values, the indices are computed by the constructor
alone, and an index-based query (getNodesByIds) after a mutation observes
the pre-mutation state. -/
theorem vax_C9_mutations_leave_indices
    (g : Graph) (ns : List Node) (es : List Edge)
    (fn : Node → Nat → Bool) (fe : Edge → Nat → Bool)
    (raw : RawGraph) (pfx : Option String) (ids : List String) :
    ((g.addNodes ns).nodesObject = g.nodesObject ∧
      (g.addNodes ns).nodeEdgesObject = g.nodeEdgesObject ∧
      (g.addNodes ns).edges = g.edges ∧ (g.addNodes ns).comments = g.comments) ∧
    ((g.addEdges es).nodesObject = g.nodesObject ∧
      (g.addEdges es).nodeEdgesObject = g.nodeEdgesObject ∧
      (g.addEdges es).nodes = g.nodes ∧ (g.addEdges es).comments = g.comments) ∧
    ((g.deleteNodes fn).nodesObject = g.nodesObject ∧
      (g.deleteNodes fn).nodeEdgesObject = g.nodeEdgesObject ∧
      (g.deleteNodes fn).edges = g.edges ∧
      (g.deleteNodes fn).comments = g.comments) ∧
    ((g.deleteEdges fe).nodesObject = g.nodesObject ∧
      (g.deleteEdges fe).nodeEdgesObject = g.nodeEdgesObject ∧
      (g.deleteEdges fe).nodes = g.nodes ∧
      (g.deleteEdges fe).comments = g.comments) ∧
    ((Graph.build raw pfx).nodesObject =
        getNodesObject (Graph.build raw pfx).nodes ∧
      (Graph.build raw pfx).nodeEdgesObject =
        getNodeEdgesObject (Graph.build raw pfx).edges) ∧
    ((g.addNodes ns).getNodesByIds ids = g.getNodesByIds ids ∧
      (g.deleteNodes fn).getNodesByIds ids = g.getNodesByIds ids) := by
  refine ⟨⟨rfl, rfl, rfl, rfl⟩, ⟨rfl, rfl, rfl, rfl⟩, ⟨rfl, rfl, rfl, rfl⟩,
    ⟨rfl, rfl, rfl, rfl⟩, ⟨rfl, rfl⟩, rfl, rfl⟩

/-! ## C10: tree composition is a pure query -/

/-- A successful composeTree call returns a value built from the lodash
clone of the stored node: every field except edges and out is the stored
one, and out is the incoming slot name passed in. -/
theorem composeTree_ok_isClone (g : Graph) (fuel : Nat) (n : Node)
    (ps : List String) (o : Option String) (m : Node)
    (h : g.composeTree fuel n ps o = .ok m) :
    m.id = n.id ∧ m.a = n.a ∧ m.t = n.t ∧ m.c = n.c ∧
    m.x = n.x ∧ m.y = n.y ∧ m.out = o := by
  cases fuel with
  | zero => simp [Graph.composeTree] at h
  | succ fuel =>
    simp only [Graph.composeTree] at h
    split at h
    · simp at h
    · split at h
      · simp at h
      · rename_i nodeEdges _
        injection h with h
        subst h
        cases n
        exact ⟨rfl, rfl, rfl, rfl, rfl, rfl, rfl⟩

/-- C10: the composition entry points leave the graph exactly as it was
(the state-threaded wrappers return the threaded graph unchanged: the
source assigns only to the lodash clone it builds), and a successfully
composed node is such a clone — the stored node is not mutated, only the
fresh copy gets its edges and out fields replaced. -/
theorem vax_C10_composition_pure
    (g : Graph) (r : String) (fuel : Nat) (n m : Node)
    (ps : List String) (o : Option String)
    (h : g.composeTree fuel n ps o = .ok m) :
    ((g.composeTreeWithRootNodeS r).2 = g ∧ (g.composeTreesS).2 = g) ∧
    (m.id = n.id ∧ m.a = n.a ∧ m.t = n.t ∧ m.c = n.c ∧
      m.x = n.x ∧ m.y = n.y ∧ m.out = o) :=
  ⟨⟨rfl, rfl⟩, composeTree_ok_isClone g fuel n ps o m h⟩

/-- Witness for C10 at the one-node fixture. -/
theorem vax_C10_witness :
    ((soloGraph.composeTreeWithRootNodeS "r").2 = soloGraph ∧
      (soloGraph.composeTreesS).2 = soloGraph) ∧
    ((mkRawNode "r" "prim").id = (mkRawNode "r" "prim").id ∧
      (mkRawNode "r" "prim").a = (mkRawNode "r" "prim").a ∧
      (mkRawNode "r" "prim").t = (mkRawNode "r" "prim").t ∧
      (mkRawNode "r" "prim").c = (mkRawNode "r" "prim").c ∧
      (mkRawNode "r" "prim").x = (mkRawNode "r" "prim").x ∧
      (mkRawNode "r" "prim").y = (mkRawNode "r" "prim").y ∧
      (mkRawNode "r" "prim").out = none) :=
  vax_C10_composition_pure soloGraph "r" 2 (mkRawNode "r" "prim")
    (mkRawNode "r" "prim") [] none rfl

/-! ## C8: getNodesByIds and missing ids -/

/-- C8 counterexample: on the one-node graph, looking up the unknown id z
puts an undefined entry (none) into the returned list instead of
signalling a lookup failure — the call still succeeds and the list holds
a none slot. -/
theorem vax_C8_cex :
    soloGraph.getNodesByIds ["z", "r"] = [none, some (mkRawNode "r" "prim")] ∧
    none ∈ soloGraph.getNodesByIds ["z", "r"] ∧
    soloGraph.nodesObject "z" = none := by
  refine ⟨rfl, ?_, rfl⟩
  decide

/-- C8 as amended: getNodesByIds returns one entry per given id, in the
given order, each entry being the index lookup of that id; an id with no
matching node therefore yields a silent undefined (none) entry in the
list, not a signalled failure. -/
theorem vax_C8_amended (g : Graph) (ids : List String) (i : Nat) (s : String)
    (h : ids[i]? = some s) :
    (g.getNodesByIds ids).length = ids.length ∧
    (g.getNodesByIds ids)[i]? = some (g.nodesObject s) := by
  constructor
  · simp [Graph.getNodesByIds]
  · simp [Graph.getNodesByIds, List.getElem?_map, h]

/-- Witness for C8 at the one-node fixture and the missing id z. -/
theorem vax_C8_witness :
    (soloGraph.getNodesByIds ["z"]).length = (["z"] : List String).length ∧
    (soloGraph.getNodesByIds ["z"])[0]? = some (soloGraph.nodesObject "z") :=
  vax_C8_amended soloGraph ["z"] 0 "z" rfl

/-! ## C3: clone with prefix -/

/-- C3 counterexample: cloning the self-edge graph with prefix p_ yields
the node id p_n but leaves the edge endpoints at n, so the single edge of
the clone references no node that exists in the clone — the endpoints are
not rewritten. -/
theorem vax_C3_cex :
    ((selfGraph.clone (some "p_")).nodes.map Node.id) = ["p_n"] ∧
    ((selfGraph.clone (some "p_")).edges.map Edge.inputNodeId) = ["n"] ∧
    ((selfGraph.clone (some "p_")).edges.map Edge.outputNodeId) = ["n"] ∧
    ¬ (∀ e ∈ (selfGraph.clone (some "p_")).edges,
        (∃ m ∈ (selfGraph.clone (some "p_")).nodes, m.id = e.inputNodeId) ∧
        (∃ m ∈ (selfGraph.clone (some "p_")).nodes, m.id = e.outputNodeId)) := by
  refine ⟨rfl, rfl, rfl, ?_⟩
  decide

/-- C3 as amended: clone-with-prefix prepends the prefix to every node id
and to both edge slot names, copies attributes, positions, component
types, comments unchanged — and copies the edge consumerId/producerId
endpoints UNCHANGED, so they are not rewritten to the new node ids. -/
theorem vax_C3_amended (g : Graph) (p : String) :
    (g.clone (some p)).nodes = g.nodes.map (fun n =>
      Node.mk (p ++ n.id) n.a n.t n.c n.edges n.x n.y n.out) ∧
    (g.clone (some p)).edges = g.edges.map (fun e =>
      Edge.mk e.inputNodeId (p ++ e.inputName) e.outputNodeId
        (p ++ e.outputName) []) ∧
    (g.clone (some p)).comments = g.comments := by
  have hn : (fun n => Node.build (Node.rawNode n) (some p)) = (fun n : Node =>
      Node.mk (p ++ n.id) n.a n.t n.c n.edges n.x n.y n.out) := by
    funext n; cases n; rfl
  have hc : Comment.rawComment = (id : Comment → Comment) := by
    funext c; cases c; rfl
  refine ⟨?_, ?_, ?_⟩
  · show (g.rawGraph.nodes.map (fun rn => Node.build rn (some p))) = _
    rw [Graph.rawGraph, List.map_map]
    exact congrFun (congrArg List.map hn) g.nodes
  · show (g.rawGraph.edges.map (fun re => Edge.build re (some p))) = _
    rw [Graph.rawGraph, List.map_map]
    rfl
  · show g.comments.map Comment.rawComment = _
    rw [hc, List.map_id]

/-! ## C6: load / raw-form round trip -/

theorem Node_rawNode_eq (n : Node) : n.rawNode = n := by
  cases n; rfl

theorem Node_build_none (n : Node) : Node.build n none = n := by
  cases n; simp [Node.build]

theorem Edge_build_rawEdge_none (e : Edge) :
    Edge.build (Edge.rawEdge e) none = Edge.mk e.inputNodeId e.inputName
      e.outputNodeId e.outputName [] := by
  simp [Edge.build, Edge.rawEdge]

/-- Building a Graph from a raw description without a prefix and reading
its raw form back yields the very same raw description. -/
theorem Graph_build_rawGraph (raw : RawGraph) :
    (Graph.build raw none).rawGraph = raw := by
  have h1 : ∀ l : List Node,
      (l.map (fun n => Node.build n none)).map Node.rawNode = l := by
    intro l
    induction l with
    | nil => rfl
    | cons a l ih =>
      simp only [List.map_cons]
      rw [ih, Node_build_none, Node_rawNode_eq]
  have h2 : ∀ l : List RawEdge,
      (l.map (fun r => Edge.build r none)).map Edge.rawEdge = l := by
    intro l
    induction l with
    | nil => rfl
    | cons a l ih =>
      obtain ⟨w, x, y, z⟩ := a
      simp only [List.map_cons]
      rw [ih]
      show (Edge.build (w, x, y, z) none).rawEdge :: l = (w, x, y, z) :: l
      simp [Edge.build, Edge.rawEdge, String.empty_append]
  have h3 : ∀ l : List Comment, l.map Comment.rawComment = l := by
    intro l
    induction l with
    | nil => rfl
    | cons a l ih =>
      simp only [List.map_cons]
      rw [ih]
      cases a
      rfl
  cases raw with
  | mk ns es cs =>
    show RawGraph.mk ((ns.map (fun n => Node.build n none)).map Node.rawNode)
        ((es.map (fun r => Edge.build r none)).map Edge.rawEdge)
        (cs.map Comment.rawComment) = RawGraph.mk ns es cs
    rw [h1, h2, h3]

/-- C6: whichever branch loadGraph takes (the structural-equality no-op
returning the current graph, or building a fresh Graph), the raw form of
the Graph it returns is structurally equal to the raw description that
was loaded. -/
theorem vax_C6_load_roundtrip (v : VAX) (G : RawGraph) (g : Graph) (v2 : VAX)
    (h : v.loadGraph G = .ok (g, v2)) : g.rawGraph = G := by
  unfold VAX.loadGraph at h
  split at h
  · exact Except.noConfusion h
  · rename_i g0 heq
    split at h
    · rename_i hq
      injection h with h
      have hg : g0 = g := congrArg Prod.fst h
      have hraw : G = g0.rawGraph := of_decide_eq_true hq
      rw [← hg, ← hraw]
    · injection h with h
      have hg : Graph.build G none = g := congrArg Prod.fst h
      rw [← hg, Graph_build_rawGraph]

/-- A VAX state with a loaded empty graph, empty schema and storage. -/
def vaxLoaded : VAX :=
  { graph := some (Graph.build emptyRaw none)
    schema := ⟨[]⟩
    userFunctionStorage := []
    counter := 0 }

/-- Witness for C6: loading the one-node raw graph into vaxLoaded and
taking the raw form of the returned Graph gives that raw graph back. -/
theorem vax_C6_witness : (Graph.build soloRaw none).rawGraph = soloRaw :=
  vax_C6_load_roundtrip vaxLoaded soloRaw (Graph.build soloRaw none)
    vaxLoaded rfl

/-! ## C7: loadGraph never replaces the instance graph -/

/-- C7 (the bug, evaluated on the code): every successful loadGraph call
returns the VAX state unchanged — this.graph is never assigned, so the
instance still holds (and still saves) the old graph after loading a new
one — and the constructor itself raises a TypeError, because its initial
loadGraph call dereferences the still-unset this.graph. -/
theorem vax_C7_loadGraph_never_assigns (v : VAX) (G : RawGraph)
    (pr : Graph × VAX) (h : v.loadGraph G = .ok pr) :
    pr.2 = v ∧
    (∀ options : VaxOptions, VAX.construct options = .error .typeError) ∧
    vaxLoaded.loadGraph soloRaw = .ok (Graph.build soloRaw none, vaxLoaded) ∧
    vaxLoaded.saveGraph = .ok emptyRaw ∧
    emptyRaw ≠ soloRaw := by
  refine ⟨?_, fun _ => rfl, rfl, rfl, by decide⟩
  unfold VAX.loadGraph at h
  split at h
  · exact Except.noConfusion h
  · split at h
    · injection h with h
      rw [← h]
    · injection h with h
      rw [← h]

/-- Witness for C7 at the loaded-empty-graph instance and the one-node
raw graph. -/
theorem vax_C7_witness :
    vaxLoaded = vaxLoaded ∧
    (∀ options : VaxOptions, VAX.construct options = .error .typeError) ∧
    vaxLoaded.loadGraph soloRaw = .ok (Graph.build soloRaw none, vaxLoaded) ∧
    vaxLoaded.saveGraph = .ok emptyRaw ∧
    emptyRaw ≠ soloRaw :=
  vax_C7_loadGraph_never_assigns vaxLoaded soloRaw
    (Graph.build soloRaw none, vaxLoaded) rfl

/-! ## C1 and C2: the inliner clones the host graph, not the body -/

/-- The schema that flags the component type myFn as a user function. -/
def ufSchema : Schema := ⟨[("myFn", ⟨true⟩)]⟩

/-- A host-graph node referencing the user function myFn. -/
def fNode : Node := mkRawNode "f" "myFn"

/-- The host graph: a single myFn reference node and no edges. -/
def hostRaw : RawGraph := { nodes := [fNode], edges := [], comments := [] }

def hostGraph : Graph := Graph.build hostRaw none

/-- A VAX state with the myFn schema, a loaded empty instance graph and
empty user-function storage. -/
def vaxUF : VAX :=
  { graph := some (Graph.build emptyRaw none)
    schema := ufSchema
    userFunctionStorage := []
    counter := 0 }

set_option maxHeartbeats 2000000 in
/-- C1 (the bug, evaluated on the code): evaluating the user-function
node clones the HOST graph with the fresh uf_0_ prefix and splices that
clone in — the resulting node list is exactly the prefixed copy of the
host's own reference node (component type still myFn) — and the result
is the same whether the user-function storage is empty or holds an entry
for myFn, so the cloned graph cannot be the function's definition body
(the storage holds no graph to begin with: its values are nullary
thunks). -/
theorem vax_C1_clones_host_not_body :
    (VAX.evaluateUserFunctionNode vaxUF fNode hostGraph).1.nodes
      = [Node.mk "uf_0_f" [] [] "myFn" [] none none none] ∧
    (VAX.evaluateUserFunctionNode vaxUF fNode hostGraph).1.edges = [] ∧
    (VAX.evaluateUserFunctionNode vaxUF fNode hostGraph).2.counter = 1 ∧
    (VAX.evaluateUserFunctionNode
        { vaxUF with userFunctionStorage := [("myFn", ())] }
        fNode hostGraph).1.nodes
      = [Node.mk "uf_0_f" [] [] "myFn" [] none none none] :=
  ⟨rfl, rfl, rfl, rfl⟩

set_option maxHeartbeats 4000000 in
/-- C2 (the bug, evaluated on the code): after the single inlining pass
the host graph still holds exactly one node of the user-function type
(the uf_0_ prefixed copy of the reference node itself, spliced in because
the host graph was cloned), so the fixpoint recursion runs again and
again until the fuel bound stops it; and on a graph with no
user-function nodes the function returns the INSTANCE graph this.graph,
not the graph it was given. -/
theorem vax_C2_no_fixpoint :
    ((vaxUF.evaluateUserFunctionNode fNode hostGraph).1.nodes.filter
        (fun n => n.c == "myFn")).length = 1 ∧
    vaxUF.inlineUserFunctionsInGraph 3 hostGraph none =
      .error .fuelExhausted ∧
    vaxUF.inlineUserFunctionsInGraph 1 soloGraph none =
      .ok (Graph.build emptyRaw none, vaxUF) ∧
    (Graph.build emptyRaw none).nodes ≠ soloGraph.nodes :=
  ⟨rfl, rfl, rfl, by decide⟩

/-! ## C4: cycle detection -/

/-- One step of the walk composeTree performs: the derived incoming-edge
index of consumer a holds a descriptor whose producer is b. -/
def EdgeStep (g : Graph) (a b : String) : Prop :=
  ∃ eo ∈ g.nodeEdgesObject a, eo.outputNodeId = b

/-- A graph is acyclic when no node id reaches itself through one or more
consumer-to-producer steps. -/
def Acyclic (g : Graph) : Prop :=
  ∀ n, ¬ Relation.TransGen (EdgeStep g) n n

theorem Graph_build_nodesObject (raw : RawGraph) (pfx : Option String) :
    (Graph.build raw pfx).nodesObject =
      getNodesObject (raw.nodes.map (fun rn => Node.build rn pfx)) := rfl

/-- A node the id index returns carries the id it was looked up by. -/
theorem getNodesObject_some_aux (l : List Node) :
    ∀ (acc : String → Option Node),
      (∀ i n, acc i = some n → n.id = i) →
      ∀ i n,
        (l.foldl (fun acc n => fun i => if i = n.id then some n else acc i)
          acc) i = some n → n.id = i := by
  induction l with
  | nil => intro acc hacc; exact hacc
  | cons m l ih =>
    intro acc hacc i n h
    refine ih _ ?_ i n h
    intro j k hj
    dsimp only at hj
    by_cases hc : j = m.id
    · rw [if_pos hc] at hj
      injection hj with hj
      rw [← hj]
      exact hc.symm
    · rw [if_neg hc] at hj
      exact hacc j k hj

theorem getNodesObject_some {nodes : List Node} {i : String} {n : Node}
    (h : getNodesObject nodes i = some n) : n.id = i :=
  getNodesObject_some_aux nodes (fun _ => none)
    (fun _ _ h => Option.noConfusion h) i n h

/-- A nonempty chain of steps from a to b is a transitive-closure path. -/
theorem chain'_concat_transGen {r : String → String → Prop} :
    ∀ (l : List String) (a b : String), List.Chain' r (a :: l ++ [b]) →
      Relation.TransGen r a b := by
  intro l
  induction l with
  | nil =>
    intro a b h
    simp only [List.cons_append, List.nil_append] at h
    exact Relation.TransGen.single (List.chain'_cons.mp h).1
  | cons c l ih =>
    intro a b h
    simp only [List.cons_append] at h
    have h' := List.chain'_cons.mp h
    exact Relation.TransGen.head h'.1 (ih c b h'.2)

/-- When a node id reoccurs inside an ancestor chain that steps from each
ancestor to the next and finally to that id, the graph has a cycle. -/
theorem cycle_of_mem_chain {g : Graph} {parents : List String} {nid : String}
    (hmem : nid ∈ parents)
    (hchain : List.Chain' (EdgeStep g) (parents ++ [nid])) :
    Relation.TransGen (EdgeStep g) nid nid := by
  obtain ⟨s, t, rfl⟩ := List.append_of_mem hmem
  rw [List.append_assoc, List.cons_append] at hchain
  exact chain'_concat_transGen t nid nid (List.chain'_split.mp hchain).2

/-- Folding the dedupe step over a duplicate-free list disjoint from the
accumulator appends the list. -/
theorem dedupe_foldl_eq (l : List String) :
    ∀ acc : List String, l.Nodup → (∀ x ∈ l, x ∉ acc) →
      l.foldl (fun acc x => if x ∈ acc then acc else acc ++ [x]) acc =
        acc ++ l := by
  induction l with
  | nil => intro acc _ _; simp
  | cons a l ih =>
    intro acc hnd hdis
    have ha : a ∉ acc := hdis a (List.mem_cons_self a l)
    rw [List.foldl_cons, if_neg ha, ih (acc ++ [a]) (List.nodup_cons.mp hnd).2]
    · simp
    · intro x hx hmem
      rcases List.mem_append.mp hmem with hin | hin
      · exact hdis x (List.mem_cons_of_mem a hx) hin
      · rw [List.mem_singleton] at hin
        exact (List.nodup_cons.mp hnd).1 (hin ▸ hx)

/-- On a duplicate-free ancestor list not containing x, lodash union with
the singleton x is plain append. -/
theorem lodashUnion_concat {l : List String} {x : String}
    (hnd : l.Nodup) (hx : x ∉ l) : lodashUnion l [x] = l ++ [x] := by
  unfold lodashUnion
  rw [dedupe_foldl_eq l [] hnd (fun y _ hy => (List.not_mem_nil y) hy),
    List.nil_append, List.foldl_cons, if_neg hx, List.foldl_nil]

/-- composeTree never raises the cycle error on an acyclic graph: along
any call the ancestor list is duplicate-free and forms a step chain
ending at the current node, so the guard firing would exhibit a cycle. -/
theorem composeTree_no_cycle (g : Graph)
    (hwf : ∀ i n, g.nodesObject i = some n → n.id = i)
    (hacyc : Acyclic g) :
    ∀ (fuel : Nat) (node : Node) (parents : List String) (out : Option String),
      parents.Nodup →
      List.Chain' (EdgeStep g) (parents ++ [node.id]) →
      isCycleErr (g.composeTree fuel node parents out) = false := by
  intro fuel
  induction fuel with
  | zero => intro node parents out _ _; rfl
  | succ fuel ih =>
    intro node parents out hnd hchain
    simp only [Graph.composeTree]
    split
    · rename_i hguard
      exfalso
      obtain ⟨pid, hp, he⟩ := List.any_eq_true.mp hguard
      have hmem : node.id ∈ parents := (eq_of_beq he) ▸ hp
      exact hacyc node.id (cycle_of_mem_chain hmem hchain)
    · rename_i hguard
      have hnotmem : node.id ∉ parents := fun hm =>
        hguard (List.any_eq_true.mpr ⟨node.id, hm, by simp⟩)
      have hunion : lodashUnion parents [node.id] = parents ++ [node.id] :=
        lodashUnion_concat hnd hnotmem
      simp only [hunion]
      have hnd' : (parents ++ [node.id]).Nodup := by
        simp [List.nodup_append, hnd, hnotmem]
      have hfold : ∀ (l : List EdgeObject),
          (∀ eo ∈ l, eo ∈ g.nodeEdgesObject node.id) →
          ∀ acc : List (String × Node),
            isCycleErr (l.foldlM
              (composeChildStep g (fun child childOut =>
                g.composeTree fuel child (parents ++ [node.id]) childOut))
              acc) = false := by
        intro l
        induction l with
        | nil => intro _ acc; rfl
        | cons eo rest ihl =>
          intro hsub acc
          rw [List.foldlM_cons]
          cases hlook : g.nodesObject eo.outputNodeId with
          | none =>
            simp only [composeChildStep, hlook]
            rfl
          | some child =>
            have hchild : child.id = eo.outputNodeId := hwf _ _ hlook
            have hstep : EdgeStep g node.id child.id :=
              ⟨eo, hsub eo (List.mem_cons_self _ _), hchild.symm⟩
            have hchain' : List.Chain' (EdgeStep g)
                ((parents ++ [node.id]) ++ [child.id]) := by
              rw [List.chain'_append]
              refine ⟨hchain, List.chain'_singleton _, ?_⟩
              intro x hx y hy
              simp only [List.getLast?_concat, List.head?_cons,
                Option.mem_def, Option.some.injEq] at hx hy
              rw [← hx, ← hy]
              exact hstep
            cases hrec : g.composeTree fuel child (parents ++ [node.id])
                (some eo.out) with
            | error e =>
              have hne := ih child (parents ++ [node.id]) (some eo.out)
                hnd' hchain'
              rw [hrec] at hne
              simp only [composeChildStep, hlook, hrec]
              cases e with
              | cycleDetected i ps => exact absurd hne (by simp [isCycleErr])
              | danglingNode i => rfl
              | outOfFuel => rfl
            | ok sub =>
              simp only [composeChildStep, hlook, hrec]
              exact ihl (fun x hx => hsub x (List.mem_cons_of_mem _ hx)) _
      split
      · rename_i e heq
        have hbase := hfold (g.nodeEdgesObject node.id) (fun _ h => h) []
        rw [heq] at hbase
        cases e with
        | cycleDetected i ps => exact absurd hbase (by simp [isCycleErr])
        | danglingNode i => rfl
        | outOfFuel => rfl
      · rfl

/-- C4: composing any tree over an acyclic constructed graph never raises
the cycle error (the dangling and fuel outcomes are distinct error
values), and on the two-node cyclic graph (A consumes from B, B consumes
from A) composing from A or from B raises the cycle error carrying the
repeated node id and the full ancestor chain. -/
theorem vax_C4_cycle_detection (raw : RawGraph) (pfx : Option String)
    (r : String) (hacyc : Acyclic (Graph.build raw pfx)) :
    isCycleErr ((Graph.build raw pfx).composeTreeWithRootNode r) = false ∧
    cycGraph.composeTreeWithRootNode "A" =
      .error (.cycleDetected "A" ["A", "B"]) ∧
    cycGraph.composeTreeWithRootNode "B" =
      .error (.cycleDetected "B" ["B", "A"]) := by
  refine ⟨?_, rfl, rfl⟩
  unfold Graph.composeTreeWithRootNode
  cases hlook : (Graph.build raw pfx).nodesObject r with
  | none => rfl
  | some node =>
    have hwf : ∀ i m, (Graph.build raw pfx).nodesObject i = some m →
        m.id = i := by
      intro i m h
      rw [Graph_build_nodesObject] at h
      exact getNodesObject_some h
    exact composeTree_no_cycle (Graph.build raw pfx) hwf hacyc
      ((Graph.build raw pfx).nodes.length + 1) node [] none List.nodup_nil
      (by simp)

/-- The one-node, zero-edge graph has no step at all, hence no cycle. -/
theorem soloGraph_acyclic : Acyclic soloGraph := by
  have hstep : ∀ a b, ¬ EdgeStep soloGraph a b := by
    rintro a b ⟨eo, hmem, _⟩
    simp [soloGraph, soloRaw, Graph.build, getNodeEdgesObject] at hmem
  intro n h
  cases h with
  | single hs => exact hstep _ _ hs
  | tail _ hs => exact hstep _ _ hs

/-- Witness for C4 at the one-node acyclic fixture. -/
theorem vax_C4_witness :
    isCycleErr ((Graph.build soloRaw none).composeTreeWithRootNode "r")
      = false ∧
    cycGraph.composeTreeWithRootNode "A" =
      .error (.cycleDetected "A" ["A", "B"]) ∧
    cycGraph.composeTreeWithRootNode "B" =
      .error (.cycleDetected "B" ["B", "A"]) :=
  vax_C4_cycle_detection soloRaw none "r" soloGraph_acyclic
